import Mathlib

/-!
Verification development for the ALU Timing Tool repository.

The development shallowly embeds the data model and the operations of the
recognition / telemetry pipeline: the pipe-delimited telemetry record format
written by the Cheat Engine Lua bridge (`ALU_readGameValues`,
`ALU_writeToFile`), the tolerant telemetry parser, the ROI locator search
logic of `the_loop` (profiled in `profile_output.txt`), the ROI failure
counter, the ghost data manager (`deltaToGhost`, save/load), the
confidence-gated classifier, the timer-string conversion and the
template-matching digit recognizer.

Machine floats of the original code are embedded as rationals; the fixed
six-decimal formatting of the bridge is embedded as exact fixed-point
rounding on rationals.
-/

namespace ALU

/-- Split a character list on a separator character.  The result always has
one more entry than the number of separator occurrences; an empty input
yields `[[]]`. -/
def splitSep (sep : Char) : List Char → List (List Char)
  | [] => [[]]
  | c :: cs =>
    if c = sep then [] :: splitSep sep cs
    else
      match splitSep sep cs with
      | [] => [[c]]
      | f :: t => (c :: f) :: t

/-- Join a list of fields with a separator character (left inverse of
`splitSep`). -/
def joinSep (sep : Char) : List (List Char) → List Char
  | [] => []
  | [f] => f
  | f :: t => f ++ sep :: joinSep sep t

/-- Numeric value of a decimal digit character. -/
def digitVal (c : Char) : Nat := c.toNat - ('0').toNat

/-- Decimal value of a digit string (most significant first). -/
def natOfDigits (cs : List Char) : Nat :=
  cs.foldl (fun acc c => acc * 10 + digitVal c) 0

/-- Parse a non-empty all-digit string as a natural number; anything else is
rejected. -/
def natParse? (cs : List Char) : Option Nat :=
  if cs ≠ [] ∧ ∀ c ∈ cs, c.isDigit then some (natOfDigits cs) else none

/-- Parse an optionally `-`-signed decimal integer.  Models Python `int(...)`
restricted to the plain decimal forms the feed can carry. -/
def intParse? (cs : List Char) : Option Int :=
  if cs.head? = some '-' then
    match natParse? cs.tail with
    | some n => some (-(n : Int))
    | none => none
  else
    match natParse? cs with
    | some n => some ((n : Int))
    | none => none

/-- Parse an unsigned decimal fraction: either `digits` or
`digits.digits`. -/
def fracParse? (cs : List Char) : Option ℚ :=
  match splitSep '.' cs with
  | [a] =>
    match natParse? a with
    | some n => some ((n : ℚ))
    | none => none
  | [a, b] =>
    match natParse? a, natParse? b with
    | some n, some m => some ((n : ℚ) + (m : ℚ) / ((10 : ℚ) ^ b.length))
    | _, _ => none
  | _ => none

/-- Parse an optionally `-`-signed decimal fraction.  Models Python
`float(...)` restricted to the plain fixed-point forms the feed can carry. -/
def ratParse? (cs : List Char) : Option ℚ :=
  if cs.head? = some '-' then
    match fracParse? cs.tail with
    | some q => some (-q)
    | none => none
  else fracParse? cs

/-- The single most recent valid parse of the external telemetry feed. -/
structure TelemetryFrame where
  timerUs : Int
  progress : ℚ
  rpm : Int
  gear : Int
  rpmRaw : ℚ
  checkpoint : Int
  visualTimer : Int
deriving DecidableEq

/-- Modelled from the spec: the Python `_parse_line` of the telemetry bridge
reader is not among the provided sources; §4.4/§6 specify it as: split the
line on `|`, require exactly 7 fields typed int, float, int, int, float,
int, int, and reject on any field-count or numeric-conversion mismatch. -/
def parseLineL (cs : List Char) : Option TelemetryFrame :=
  match splitSep '|' cs with
  | [f1, f2, f3, f4, f5, f6, f7] =>
    match intParse? f1, ratParse? f2, intParse? f3, intParse? f4,
          ratParse? f5, intParse? f6, intParse? f7 with
    | some t, some p, some r, some g, some rw, some cp, some vt =>
      some ⟨t, p, r, g, rw, cp, vt⟩
    | _, _, _, _, _, _, _ => none
  | _ => none

/-- Telemetry parse on a string. -/
def parseLine (s : String) : Option TelemetryFrame :=
  parseLineL s.toList

/-- One polling step of the telemetry reader: a valid parse replaces the held
frame, a rejected parse keeps the previously held frame (last-good-value
semantics). -/
def readStep (prev : TelemetryFrame) (s : String) : TelemetryFrame :=
  (parseLine s).getD prev

/-- Decimal digits of `n`, most significant first, with explicit fuel
(`n + 1` suffices). -/
def natDigitsAux : Nat → Nat → List Char
  | 0, _ => []
  | fuel + 1, n =>
    if n < 10 then [Nat.digitChar n]
    else natDigitsAux fuel (n / 10) ++ [Nat.digitChar (n % 10)]

/-- Decimal rendering of a natural number (the `%d` of the Lua bridge on
non-negative values). -/
def fmtNat (n : Nat) : List Char := natDigitsAux (n + 1) n

/-- Decimal rendering of an integer (Lua `string.format` `%d`). -/
def fmtInt (i : Int) : List Char :=
  if i < 0 then '-' :: fmtNat i.natAbs else fmtNat i.natAbs

/-- The six fraction digits of a fixed-point rendering, most significant
first. -/
def fmtFrac6 (m : Nat) : List Char :=
  [Nat.digitChar (m / 100000 % 10), Nat.digitChar (m / 10000 % 10),
   Nat.digitChar (m / 1000 % 10), Nat.digitChar (m / 100 % 10),
   Nat.digitChar (m / 10 % 10), Nat.digitChar (m % 10)]

/-- Half-up rounding of a rational to micro-units. -/
def round6 (q : ℚ) : Int := ⌊q * 1000000 + 1 / 2⌋

/-- Fixed six-decimal rendering of `n` micro-units. -/
def fmtFixed6Nat (n : Nat) : List Char :=
  fmtNat (n / 1000000) ++ '.' :: fmtFrac6 (n % 1000000)

/-- Fixed six-decimal rendering of a rational (Lua `string.format` `%.6f`,
with machine-float values embedded as rationals). -/
def fmtFixed6 (q : ℚ) : List Char :=
  if q < 0 then '-' :: fmtFixed6Nat (round6 (-q)).toNat
  else fmtFixed6Nat (round6 q).toNat

/-- The game-memory symbols visible to the Lua bridge.  `none` models an
unavailable or unreadable symbol (`getAddressSafe` returning nil/0, or the
read returning nil); the checkpoint is behind one extra pointer
dereference. -/
structure GameMem where
  raceTimer : Option Int
  raceProgress : Option ℚ
  raceRPMInt : Option Int
  raceGear : Option Int
  raceRPMRaw : Option ℚ
  checkpointPtr : Option (Option Int)
  visualTimer : Option Int

/-- The telemetry producer's value collection (`ALU_readGameValues` of the
Cheat Engine Lua bridge): every unavailable or unreadable symbol yields the
default 0 / 0.0. -/
def ALU_readGameValues (m : GameMem) : Int × ℚ × Int × Int × ℚ × Int × Int :=
  (m.raceTimer.getD 0, m.raceProgress.getD 0, m.raceRPMInt.getD 0,
   m.raceGear.getD 0, m.raceRPMRaw.getD 0,
   (match m.checkpointPtr with | some (some v) => v | _ => 0),
   m.visualTimer.getD 0)

/-- The payload written by the producer (`ALU_writeToFile`):
`string.format` with pattern `%d|%.6f|%d|%d|%.6f|%d|%d` and no trailing
newline. -/
def ALU_writeToFile (m : GameMem) : List Char :=
  match ALU_readGameValues m with
  | (t, p, rpm, gear, rpmRaw, cp, vt) =>
    joinSep '|'
      [fmtInt t, fmtFixed6 p, fmtInt rpm, fmtInt gear, fmtFixed6 rpmRaw,
       fmtInt cp, fmtInt vt]

/-- The rational actually carried by the six-decimal rendering of `q`:
`q` rounded (half-up) to micro-units. -/
def fixed6Val (q : ℚ) : ℚ :=
  if q < 0 then -(((round6 (-q)).toNat : ℚ) / 1000000)
  else ((round6 q).toNat : ℚ) / 1000000

/-- The telemetry frame a conforming reader obtains from the producer's
payload: integer fields verbatim, float fields rounded to the six written
decimals. -/
def writtenFrame (m : GameMem) : TelemetryFrame :=
  match ALU_readGameValues m with
  | (t, p, rpm, gear, rpmRaw, cp, vt) =>
    ⟨t, fixed6Val p, rpm, gear, fixed6Val rpmRaw, cp, vt⟩

/-- A `GameMem` with every read defaulted the way `ALU_readGameValues`
defaults it: an absent symbol becomes a present zero. -/
def defaultedMem (m : GameMem) : GameMem :=
  ⟨some (m.raceTimer.getD 0), some (m.raceProgress.getD 0),
   some (m.raceRPMInt.getD 0), some (m.raceGear.getD 0),
   some (m.raceRPMRaw.getD 0),
   some (some (match m.checkpointPtr with | some (some v) => v | _ => 0)),
   some (m.visualTimer.getD 0)⟩

/-- One OCR detector result: a quadrilateral of points and the recognized
text (the `(bbox, text, conf)` triples of `reader.readtext`, confidence
unused by the locator). -/
structure OcrResult where
  bbox : List (Int × Int)
  text : String

/-- Least x-coordinate of a point list (`np.min(box[:, 0])`). -/
def minFst : List (Int × Int) → Int
  | [] => 0
  | p :: t => t.foldl (fun a q => min a q.1) p.1

/-- Least y-coordinate of a point list (`np.min(box[:, 1])`). -/
def minSnd : List (Int × Int) → Int
  | [] => 0
  | p :: t => t.foldl (fun a q => min a q.2) p.2

/-- Greatest x-coordinate of a point list (`np.max(box[:, 0])`). -/
def maxFst : List (Int × Int) → Int
  | [] => 0
  | p :: t => t.foldl (fun a q => max a q.1) p.1

/-- Greatest y-coordinate of a point list (`np.max(box[:, 1])`). -/
def maxSnd : List (Int × Int) → Int
  | [] => 0
  | p :: t => t.foldl (fun a q => max a q.2) p.2

/-- An axis-aligned box `(x0, y0)-(x1, y1)`. -/
structure Box where
  x0 : Int
  y0 : Int
  x1 : Int
  y1 : Int
deriving DecidableEq

/-- Axis-aligned bounds of a detector result's quadrilateral. -/
def boundsOf (r : OcrResult) : Box :=
  ⟨minFst r.bbox, minSnd r.bbox, maxFst r.bbox, maxSnd r.bbox⟩

/-- Lower-cased character list of a string (`text.lower()`). -/
def lowerList (s : String) : List Char :=
  s.toList.map Char.toLower

/-- Whether `needle` occurs as a contiguous substring of `hay`
(Python `needle in hay`). -/
def hasSubstr : List Char → List Char → Bool
  | [], needle => needle.isEmpty
  | c :: t, needle => needle.isPrefixOf (c :: t) || hasSubstr t needle

/-- Anchor test of `the_loop`: the lower-cased detector text contains the
anchor substring (`"dist" in text.lower()`). -/
def anchorMatch (anchor : List Char) (r : OcrResult) : Bool :=
  hasSubstr (lowerList r.text) anchor

/-- Strip leading and trailing whitespace (`str.strip()`). -/
def stripChars (cs : List Char) : List Char :=
  ((cs.dropWhile Char.isWhitespace).reverse.dropWhile Char.isWhitespace).reverse

/-- Whether the stripped text ends with one of the terminator characters
(`next_text.strip().endswith('%') or next_text.strip().endswith('7')`,
generalized to a configured terminator set). -/
def endsWithAny (terms : List Char) (s : String) : Bool :=
  match (stripChars s.toList).getLast? with
  | some c => terms.contains c
  | none => false

/-- Companion test of `the_loop` against anchor bounds `a`:
same line (`abs(ny0 - y0) < tol`), strictly right of the anchor's right edge
(`nx0 > x1`), and terminator-ended text. -/
def isCompanion (tol : Nat) (terms : List Char) (a : Box) (r : OcrResult) : Bool :=
  let b := boundsOf r
  decide ((b.y0 - a.y0).natAbs < tol) && decide (a.x1 < b.x0) &&
    endsWithAny terms r.text

/-- First companion among the results after the anchor (`the_loop`'s inner
`for j in range(i + 1, len(results))` with `break` on the first match). -/
def findCompanion (tol : Nat) (terms : List Char) (a : Box) :
    List OcrResult → Option Box
  | [] => none
  | r :: rs =>
    if isCompanion tol terms a r then some (boundsOf r)
    else findCompanion tol terms a rs

/-- Coordinate-wise union of two boxes (`the_loop`'s
`min(x0, nx0) / min(y0, ny0) / max(x1, nx1) / max(y1, ny1)`). -/
def unionBox (a b : Box) : Box :=
  ⟨min a.x0 b.x0, min a.y0 b.y0, max a.x1 b.x1, max a.y1 b.y1⟩

/-- SEARCHING-mode locator scan of `the_loop`: the first anchor-matching
result becomes the anchor; the first companion after it extends the box to
the union; the scan locks on the first anchor (`break  # only do once per
frame`). -/
def locateSearch (anchor : List Char) (tol : Nat) (terms : List Char) :
    List OcrResult → Option Box
  | [] => none
  | r :: rs =>
    if anchorMatch anchor r then
      match findCompanion tol terms (boundsOf r) rs with
      | some c => some (unionBox (boundsOf r) c)
      | none => some (boundsOf r)
    else locateSearch anchor tol terms rs

/-- The locator instance of `the_loop`: anchor `"dist"`, 20-pixel line
tolerance, terminator set `{'%', '7'}` ('7' being the common OCR misread of
'%'). -/
def locateDistBox (results : List OcrResult) : Option Box :=
  locateSearch (("dist").toList) 20 ['%', '7'] results

/-- ROI locator mode. -/
inductive RoiMode where
  | searching : RoiMode
  | locked : RoiMode
deriving DecidableEq

/-- Per-tracked-field ROI locator state. -/
structure RoiState where
  mode : RoiMode
  box : Option Box
  consecutiveFailures : Nat
  failureThreshold : Nat
deriving DecidableEq

/-- Modelled from the spec: the shipping ROI locator module
(`src/modules` per the README) is not among the provided sources; §4.1
specifies the LOCKED-mode miss step as: increment `consecutiveFailures` and,
when it reaches `failureThreshold`, transition back to SEARCHING and discard
the box.  A miss while already SEARCHING changes nothing. -/
def roiMissStep (s : RoiState) : RoiState :=
  match s.mode with
  | .searching => s
  | .locked =>
    if s.failureThreshold ≤ s.consecutiveFailures + 1 then
      ⟨.searching, none, 0, s.failureThreshold⟩
    else
      ⟨.locked, s.box, s.consecutiveFailures + 1, s.failureThreshold⟩

/-- Modelled from the spec: §4.1 successful-recognition step — reset
`consecutiveFailures` to 0 and stay LOCKED. -/
def roiHitStep (s : RoiState) : RoiState :=
  match s.mode with
  | .searching => s
  | .locked => ⟨.locked, s.box, 0, s.failureThreshold⟩

/-- Apply `n` consecutive recognition misses to `s`. -/
def roiIter (s : RoiState) : Nat → RoiState
  | 0 => s
  | n + 1 => roiMissStep (roiIter s n)

/-- A freshly locked ROI state with threshold `t` and box `b`. -/
def lockedState (b : Box) (t : Nat) : RoiState :=
  ⟨.locked, some b, 0, t⟩

/-- Number of LOCKED-to-SEARCHING transitions within the first `n` miss
steps from `s`. -/
def transCount (s : RoiState) : Nat → Nat
  | 0 => 0
  | n + 1 =>
    transCount s n +
      (if (roiIter s n).mode = RoiMode.locked ∧
          (roiIter s (n + 1)).mode = RoiMode.searching then 1 else 0)

/-- A recorded race sample. -/
structure Sample where
  elapsedMs : Int
  progress : ℚ
  rawText : String
deriving DecidableEq

/-- Modelled from the spec: the Race Data Manager is not among the provided
sources; §4.5 specifies the ghost lookup as a scan for the two samples whose
`progress` bracket the query, clamping to the nearest endpoint outside the
recorded range, with linear interpolation of `elapsedMs` inside a bracket.
`a` is the last sample already passed; the duplicate-progress guard keeps the
interpolation total. -/
def ghostElapsedGo (a : Sample) : List Sample → ℚ → ℚ
  | [], _ => (a.elapsedMs : ℚ)
  | b :: rest, p =>
    if p ≤ a.progress then (a.elapsedMs : ℚ)
    else if p ≤ b.progress then
      if a.progress = b.progress then (a.elapsedMs : ℚ)
      else
        (a.elapsedMs : ℚ) +
          (p - a.progress) / (b.progress - a.progress) *
            ((b.elapsedMs : ℚ) - (a.elapsedMs : ℚ))
    else ghostElapsedGo b rest p

/-- The ghost's elapsed time interpolated at progress `p`; `none` on an empty
ghost. -/
def ghostElapsedAt : List Sample → ℚ → Option ℚ
  | [], _ => none
  | a :: rest, p => some (ghostElapsedGo a rest p)

/-- Modelled from the spec (§4.5): `deltaToGhost` — current elapsed time
minus the ghost's interpolated elapsed time at the current progress;
positive means behind the ghost. -/
def deltaToGhost (ghost : List Sample) (cur : Sample) : Option ℚ :=
  (ghostElapsedAt ghost cur.progress).map
    (fun e => (cur.elapsedMs : ℚ) - e)

/-- Strictly increasing progress along a ghost (the recorded samples are in
temporal order). -/
def progSorted (l : List Sample) : Prop :=
  l.Chain' (fun a b => a.progress < b.progress)

/-- Exact decimal/fraction rendering of a rational: `num/den`. -/
def fmtRatExact (q : ℚ) : List Char :=
  fmtInt q.num ++ '/' :: fmtNat q.den

/-- Parse the exact `num/den` rational rendering. -/
def ratExactParse? (cs : List Char) : Option ℚ :=
  match splitSep '/' cs with
  | [a, b] =>
    match intParse? a, natParse? b with
    | some n, some d => some ((n : ℚ) / (d : ℚ))
    | _, _ => none
  | _ => none

/-- A persisted ghost file: a format version and one serialized record per
sample, in order. -/
structure GhostFile where
  version : Nat
  records : List (List Char × List Char × String)
deriving DecidableEq

/-- Modelled from the spec: the Race Data Manager's persistence code is not
among the provided sources; §6 specifies an ordered sequence of
`(elapsedMs, progress, rawText)` records in a stable, versioned format.  The
numeric fields are serialized as exact decimal strings, the raw text is kept
as a record field of its own. -/
def saveGhost (race : List Sample) : GhostFile :=
  ⟨1, race.map (fun s => (fmtInt s.elapsedMs, fmtRatExact s.progress, s.rawText))⟩

/-- Re-parse a serialized record list in order; any unparseable record
rejects the whole list. -/
def loadRecords : List (List Char × List Char × String) → Option (List Sample)
  | [] => some []
  | r :: rest =>
    match intParse? r.1, ratExactParse? r.2.1, loadRecords rest with
    | some e, some p, some tail => some (Sample.mk e p r.2.2 :: tail)
    | _, _, _ => none

/-- Modelled from the spec: load a persisted ghost — check the format
version and re-parse every record; any unparseable record rejects the
file. -/
def loadGhost (f : GhostFile) : Option (List Sample) :=
  if f.version = 1 then loadRecords f.records else none

/-- An internal failure of one pipeline stage. -/
inductive StageFailure where
  | failure : String → StageFailure
deriving DecidableEq

/-- The raw per-frame outcomes of the pipeline stages, each of which may
fail internally. -/
structure PipeOutcomes where
  locate : Except StageFailure Box
  recognize : Except StageFailure String
  convert : Except StageFailure Int
  append : Except StageFailure Unit

/-- Modelled from the spec (§7 propagation policy): the wrapper every stage
call goes through — an internal failure becomes an explicit `none` for the
caller instead of propagating. -/
def guardStage {α : Type} (x : Except StageFailure α) : Option α :=
  match x with
  | .ok a => some a
  | .error _ => none

/-- The coordinator's per-pass output. -/
structure CoordState where
  lastBox : Option Box
  lastResult : Option Int
deriving DecidableEq

/-- Modelled from the spec: the Recognition Coordinator is not among the
provided sources; §2/§7 specify one pass as ROI locate, recognize, convert,
append, with every stage failure surfaced as "no update this frame". -/
def coordinatorPure (o : PipeOutcomes) (s : CoordState) : CoordState :=
  match guardStage o.locate with
  | none => ⟨none, s.lastResult⟩
  | some b =>
    match guardStage o.recognize with
    | none => ⟨some b, s.lastResult⟩
    | some _ =>
      match guardStage o.convert with
      | none => ⟨some b, s.lastResult⟩
      | some v =>
        match guardStage o.append with
        | none => ⟨some b, some v⟩
        | some _ => ⟨some b, some v⟩

/-- A stage call inside the coordinator: the raw outcome is run under an
explicit catch, so an internal stage failure reaches the coordinator as
`none` rather than as an exception. -/
def stageCall {α : Type} (x : Except StageFailure α) :
    Except StageFailure (Option α) :=
  tryCatch (do let a ← x; pure (some a)) (fun _ => pure none)

/-- The coordinator pass in the failure monad: every stage's raw outcome is
consumed through `stageCall`, so the pass itself can only terminate
normally. -/
def coordinatorPassE (o : PipeOutcomes) (s : CoordState) :
    Except StageFailure CoordState := do
  match ← stageCall o.locate with
  | none => pure ⟨none, s.lastResult⟩
  | some b =>
    match ← stageCall o.recognize with
    | none => pure ⟨some b, s.lastResult⟩
    | some _ =>
      match ← stageCall o.convert with
      | none => pure ⟨some b, s.lastResult⟩
      | some v =>
        match ← stageCall o.append with
        | _ => pure ⟨some b, some v⟩

/-- Modelled from the spec/README (`confidence_threshold=0.65`): the
confidence gate of the classifier — accept the predicted value only when the
reported confidence meets or exceeds the threshold. -/
def gatePrediction (threshold confidence value : ℚ) : Option ℚ :=
  if threshold ≤ confidence then some value else none

/-- The caller's accept step: an accepted prediction replaces the last
accepted value, a gated-out one leaves it in effect. -/
def gateStep (threshold : ℚ) (lastAccepted : Option ℚ)
    (confidence value : ℚ) : Option ℚ :=
  match gatePrediction threshold confidence value with
  | some v => some v
  | none => lastAccepted

/-- The default classifier confidence threshold. -/
def defaultConfidenceThreshold : ℚ := 65 / 100

/-- Assemble the millisecond count from the three digit runs of a timer
string; any run that is not a non-empty digit sequence yields "no
result". -/
def timerAssemble (mp sp msp : List Char) : Option Nat :=
  match natParse? mp, natParse? sp, natParse? msp with
  | some m, some s, some ms => some (m * 60000 + s * 1000 + ms)
  | _, _, _ => none

/-- Split the seconds part of a timer string on the decimal point. -/
def timerSecPart (mp rest : List Char) : Option Nat :=
  match splitSep '.' rest with
  | [sp, msp] => timerAssemble mp sp msp
  | _ => none

/-- Modelled from the spec: the timer-recognition module is not among the
provided sources; §4.2 specifies a conversion of the assembled
`minutes:seconds.milliseconds` string to integer milliseconds, with every
malformed string yielding "no result". -/
def timerToMsL (cs : List Char) : Option Nat :=
  match splitSep ':' cs with
  | [mp, rest] => timerSecPart mp rest
  | _ => none

/-- Timer-string conversion on a string. -/
def timerToMs (s : String) : Option Nat :=
  timerToMsL s.toList

/-- Well-formedness of a timer string: digit runs in the shape
`minutes:seconds.milliseconds`, every run non-empty and all-digit. -/
def wellFormedTimer (cs : List Char) (v : Nat) : Prop :=
  ∃ mp sp msp : List Char,
    cs = mp ++ ':' :: (sp ++ '.' :: msp) ∧
    mp ≠ [] ∧ (∀ c ∈ mp, c.isDigit) ∧
    sp ≠ [] ∧ (∀ c ∈ sp, c.isDigit) ∧
    msp ≠ [] ∧ (∀ c ∈ msp, c.isDigit) ∧
    v = natOfDigits mp * 60000 + natOfDigits sp * 1000 + natOfDigits msp

/-- A glyph bitmap (a binarized crop or template). -/
def Glyph : Type := List (List Bool)

/-- Modelled from the spec: the template-matching module is not among the
provided sources; §4.2 specifies a per-template similarity score.  Here: the
number of agreeing cells of the overlapped bitmaps. -/
def glyphScore (crop tmpl : Glyph) : Nat :=
  (List.zip crop tmpl).foldl
    (fun acc rows =>
      acc + (List.zip rows.1 rows.2).countP (fun pq => pq.1 == pq.2)) 0

/-- Best-scoring template for a crop, first-of-equals on ties, scanned in
template-set order. -/
def bestTemplate (crop : Glyph) (ts : List (Char × Glyph)) :
    Option (Char × Nat) :=
  ts.foldl
    (fun best ct =>
      match best with
      | none => some (ct.1, glyphScore crop ct.2)
      | some (c0, s0) =>
        if s0 < glyphScore crop ct.2 then some (ct.1, glyphScore crop ct.2)
        else some (c0, s0)) none

/-- Modelled from the spec (§4.2): recognize one glyph crop — the
best-scoring template's digit, or "unresolved" when the best score is below
the minimum-acceptable threshold. -/
def recognizeGlyph (minScore : Nat) (crop : Glyph)
    (ts : List (Char × Glyph)) : Option Char :=
  match bestTemplate crop ts with
  | some (c, s) => if minScore ≤ s then some c else none
  | none => none

theorem splitSep_ne_nil (sep : Char) (cs : List Char) : splitSep sep cs ≠ [] := by
  induction cs with
  | nil => simp [splitSep]
  | cons c t ih =>
    simp only [splitSep]
    by_cases h : c = sep
    · simp [h]
    · simp only [if_neg h]
      rcases hs : splitSep sep t with _ | ⟨f, r⟩
      · exact absurd hs ih
      · simp

theorem splitSep_of_not_mem {sep : Char} {cs : List Char} (h : sep ∉ cs) :
    splitSep sep cs = [cs] := by
  induction cs with
  | nil => simp [splitSep]
  | cons c t ih =>
    have hc : ¬ c = sep := by
      intro he; exact h (by simp [he])
    have ht : sep ∉ t := fun hm => h (List.mem_cons_of_mem _ hm)
    simp [splitSep, hc, ih ht]

theorem splitSep_append {sep : Char} {xs : List Char} (ys : List Char)
    (h : sep ∉ xs) :
    splitSep sep (xs ++ sep :: ys) = xs :: splitSep sep ys := by
  induction xs with
  | nil => simp [splitSep]
  | cons c t ih =>
    have hc : ¬ c = sep := by
      intro he; exact h (by simp [he])
    have ht : sep ∉ t := fun hm => h (List.mem_cons_of_mem _ hm)
    simp [splitSep, hc, ih ht]

theorem joinSep_splitSep (sep : Char) (cs : List Char) :
    joinSep sep (splitSep sep cs) = cs := by
  induction cs with
  | nil => simp [splitSep, joinSep]
  | cons c t ih =>
    simp only [splitSep]
    by_cases h : c = sep
    · subst h
      simp only [if_pos rfl]
      rcases hs : splitSep c t with _ | ⟨f, r⟩
      · exact absurd hs (splitSep_ne_nil c t)
      · rw [hs] at ih
        simp [joinSep, ih]
    · simp only [if_neg h]
      rcases hs : splitSep sep t with _ | ⟨f, r⟩
      · exact absurd hs (splitSep_ne_nil sep t)
      · rw [hs] at ih
        rcases r with _ | ⟨g, r2⟩
        · simpa [joinSep] using congrArg (fun l => c :: l) ih
        · simpa [joinSep] using congrArg (fun l => c :: l) ih

theorem eq_append_of_splitSep_pair {sep : Char} {cs a b : List Char}
    (h : splitSep sep cs = [a, b]) : cs = a ++ sep :: b := by
  have := joinSep_splitSep sep cs
  rw [h] at this
  simpa [joinSep] using this.symm

theorem digitVal_digitChar {m : Nat} (h : m < 10) :
    digitVal (Nat.digitChar m) = m := by
  interval_cases m <;> rfl

theorem isDigit_digitChar {m : Nat} (h : m < 10) :
    (Nat.digitChar m).isDigit = true := by
  interval_cases m <;> rfl

theorem natOfDigits_append_singleton (xs : List Char) (c : Char) :
    natOfDigits (xs ++ [c]) = natOfDigits xs * 10 + digitVal c := by
  simp [natOfDigits, List.foldl_append]

theorem natDigitsAux_spec {fuel n : Nat} (h : n < fuel) :
    natDigitsAux fuel n ≠ [] ∧ (∀ c ∈ natDigitsAux fuel n, c.isDigit) ∧
      natOfDigits (natDigitsAux fuel n) = n := by
  induction fuel generalizing n with
  | zero => omega
  | succ fuel ih =>
    by_cases hn : n < 10
    · refine ⟨by simp [natDigitsAux, hn], ?_, ?_⟩
      · intro c hc
        simp [natDigitsAux, hn] at hc
        subst hc
        exact isDigit_digitChar hn
      · simp [natDigitsAux, hn, natOfDigits, digitVal_digitChar hn]
    · have hdiv : n / 10 < fuel := by omega
      obtain ⟨h1, h2, h3⟩ := ih hdiv
      have hm : n % 10 < 10 := Nat.mod_lt _ (by omega)
      refine ⟨by simp [natDigitsAux, hn], ?_, ?_⟩
      · intro c hc
        simp only [natDigitsAux, if_neg hn, List.mem_append,
          List.mem_singleton] at hc
        rcases hc with hc | hc
        · exact h2 c hc
        · subst hc
          exact isDigit_digitChar hm
      · simp only [natDigitsAux, if_neg hn]
        rw [natOfDigits_append_singleton, h3, digitVal_digitChar hm]
        omega

theorem fmtNat_ne_nil (n : Nat) : fmtNat n ≠ [] :=
  (natDigitsAux_spec (Nat.lt_succ_self n)).1

theorem fmtNat_all_digit (n : Nat) : ∀ c ∈ fmtNat n, c.isDigit :=
  (natDigitsAux_spec (Nat.lt_succ_self n)).2.1

theorem natOfDigits_fmtNat (n : Nat) : natOfDigits (fmtNat n) = n :=
  (natDigitsAux_spec (Nat.lt_succ_self n)).2.2

theorem natParse?_fmtNat (n : Nat) : natParse? (fmtNat n) = some n := by
  have h : fmtNat n ≠ [] ∧ ∀ c ∈ fmtNat n, c.isDigit :=
    ⟨fmtNat_ne_nil n, fmtNat_all_digit n⟩
  rw [natParse?, if_pos h, natOfDigits_fmtNat n]

theorem natParse?_eq_some {cs : List Char} {n : Nat}
    (h : natParse? cs = some n) :
    cs ≠ [] ∧ (∀ c ∈ cs, c.isDigit) ∧ n = natOfDigits cs := by
  by_cases hc : cs ≠ [] ∧ ∀ c ∈ cs, c.isDigit
  · refine ⟨hc.1, hc.2, ?_⟩
    rw [natParse?, if_pos hc] at h
    exact (Option.some_inj.mp h).symm
  · rw [natParse?, if_neg hc] at h
    exact absurd h (by simp)

theorem natParse?_of_digits {cs : List Char} (h1 : cs ≠ [])
    (h2 : ∀ c ∈ cs, c.isDigit) : natParse? cs = some (natOfDigits cs) := by
  rw [natParse?, if_pos ⟨h1, h2⟩]

theorem head?_fmtNat_ne {n : Nat} {c : Char} (hc : c.isDigit = false) :
    (fmtNat n).head? ≠ some c := by
  rcases hn : fmtNat n with _ | ⟨d, rest⟩
  · exact absurd hn (fmtNat_ne_nil n)
  · have hd : d.isDigit := by
      have := fmtNat_all_digit n d
      rw [hn] at this
      exact this (by simp)
    simp only [List.head?_cons]
    intro he
    injection he with he2
    rw [he2, hc] at hd
    exact absurd hd (by simp)

theorem intParse?_fmtInt (i : Int) : intParse? (fmtInt i) = some i := by
  by_cases h : i < 0
  · rw [fmtInt, if_pos h, intParse?]
    have hh : ('-' :: fmtNat i.natAbs).head? = some '-' := rfl
    rw [if_pos hh]
    simp only [List.tail_cons, natParse?_fmtNat]
    show some (-(i.natAbs : Int)) = some i
    congr 1
    omega
  · rw [fmtInt, if_neg h, intParse?, if_neg (head?_fmtNat_ne (by decide)),
      natParse?_fmtNat]
    show some ((i.natAbs : Int)) = some i
    congr 1
    omega

theorem mem_of_natParse? {cs : List Char} {n : Nat} {c : Char}
    (h : natParse? cs = some n) (hm : c ∈ cs) : c.isDigit :=
  (natParse?_eq_some h).2.1 c hm

theorem not_mem_of_intParse? {cs : List Char} {i : Int} {c : Char}
    (h : intParse? cs = some i) (hd : c.isDigit = false) (hdash : c ≠ '-') :
    c ∉ cs := by
  intro hm
  rcases cs with _ | ⟨c0, t⟩
  · simp at hm
  rw [intParse?] at h
  by_cases h0 : (c0 :: t).head? = some '-'
  · rw [if_pos h0] at h
    simp only [List.head?_cons] at h0
    injection h0 with h0
    simp only [List.tail_cons] at h
    split at h
    · rename_i n hn
      rcases List.mem_cons.mp hm with hc | hc
      · exact hdash (hc.trans h0)
      · have := mem_of_natParse? hn hc
        rw [hd] at this
        exact absurd this (by simp)
    · exact absurd h (by simp)
  · rw [if_neg h0] at h
    split at h
    · rename_i n hn
      have := mem_of_natParse? hn hm
      rw [hd] at this
      exact absurd this (by simp)
    · exact absurd h (by simp)

theorem fracParse?_single {cs a : List Char} (hsp : splitSep '.' cs = [a]) :
    fracParse? cs =
      match natParse? a with
      | some n => some ((n : ℚ))
      | none => none := by
  rw [fracParse?, hsp]

theorem fracParse?_pair {cs a b : List Char}
    (hsp : splitSep '.' cs = [a, b]) :
    fracParse? cs =
      match natParse? a, natParse? b with
      | some n, some m => some ((n : ℚ) + (m : ℚ) / ((10 : ℚ) ^ b.length))
      | _, _ => none := by
  rw [fracParse?, hsp]

theorem fracParse?_other {cs : List Char}
    (h1 : ∀ a, splitSep '.' cs ≠ [a]) (h2 : ∀ a b, splitSep '.' cs ≠ [a, b]) :
    fracParse? cs = none := by
  rw [fracParse?]
  rcases hsp : splitSep '.' cs with _ | ⟨a, r⟩
  · exact absurd hsp (splitSep_ne_nil _ _)
  rcases r with _ | ⟨b, r2⟩
  · exact absurd hsp (h1 a)
  rcases r2 with _ | ⟨d, r3⟩
  · exact absurd hsp (h2 a b)
  · rfl

theorem not_mem_of_fracParse? {cs : List Char} {q : ℚ} {c : Char}
    (h : fracParse? cs = some q) (hd : c.isDigit = false) (hdot : c ≠ '.') :
    c ∉ cs := by
  intro hm
  have hj := joinSep_splitSep '.' cs
  rcases hsp : splitSep '.' cs with _ | ⟨a, r⟩
  · exact absurd hsp (splitSep_ne_nil _ _)
  rcases r with _ | ⟨b, r2⟩
  · rw [fracParse?_single hsp] at h
    rw [hsp] at hj
    simp only [joinSep] at hj
    split at h
    · rename_i n hn
      rw [← hj] at hm
      have := mem_of_natParse? hn hm
      rw [hd] at this
      exact absurd this (by simp)
    · exact absurd h (by simp)
  rcases r2 with _ | ⟨d, r3⟩
  · rw [fracParse?_pair hsp] at h
    rw [hsp] at hj
    simp only [joinSep] at hj
    split at h
    · rename_i n m hna hnb
      rw [← hj] at hm
      rcases List.mem_append.mp hm with hc | hc
      · have := mem_of_natParse? hna hc
        rw [hd] at this
        exact absurd this (by simp)
      · rcases List.mem_cons.mp hc with hc2 | hc2
        · exact hdot hc2
        · have := mem_of_natParse? hnb hc2
          rw [hd] at this
          exact absurd this (by simp)
    · exact absurd h (by simp)
  · rw [fracParse?_other (by rw [hsp]; intro x he; simp at he)
      (by rw [hsp]; intro x y he; simp at he)] at h
    exact absurd h (by simp)

theorem not_mem_of_ratParse? {cs : List Char} {q : ℚ} {c : Char}
    (h : ratParse? cs = some q) (hd : c.isDigit = false) (hdot : c ≠ '.')
    (hdash : c ≠ '-') : c ∉ cs := by
  intro hm
  rcases cs with _ | ⟨c0, t⟩
  · simp at hm
  rw [ratParse?] at h
  by_cases h0 : (c0 :: t).head? = some '-'
  · rw [if_pos h0] at h
    simp only [List.head?_cons] at h0
    injection h0 with h0
    simp only [List.tail_cons] at h
    split at h
    · rename_i q2 hq
      rcases List.mem_cons.mp hm with hc | hc
      · exact hdash (hc.trans h0)
      · exact not_mem_of_fracParse? hq hd hdot hc
    · exact absurd h (by simp)
  · rw [if_neg h0] at h
    exact not_mem_of_fracParse? h hd hdot hm

theorem digitVal_digitChar_mod (x : Nat) :
    digitVal (Nat.digitChar (x % 10)) = x % 10 :=
  digitVal_digitChar (Nat.mod_lt _ (by omega))

theorem fmtFrac6_all_digit (m : Nat) : ∀ c ∈ fmtFrac6 m, c.isDigit := by
  intro c hc
  simp only [fmtFrac6, List.mem_cons, List.not_mem_nil, or_false] at hc
  rcases hc with hc | hc | hc | hc | hc | hc <;>
    (subst hc; exact isDigit_digitChar (Nat.mod_lt _ (by omega)))

theorem natOfDigits_fmtFrac6 {m : Nat} (h : m < 1000000) :
    natOfDigits (fmtFrac6 m) = m := by
  simp only [fmtFrac6, natOfDigits, List.foldl_cons, List.foldl_nil]
  simp only [digitVal_digitChar_mod]
  omega

theorem not_mem_fmtNat {n : Nat} {c : Char} (hd : c.isDigit = false) :
    c ∉ fmtNat n := by
  intro hm
  have := fmtNat_all_digit n c hm
  rw [hd] at this
  exact absurd this (by simp)

theorem not_mem_fmtFrac6 {m : Nat} {c : Char} (hd : c.isDigit = false) :
    c ∉ fmtFrac6 m := by
  intro hm
  have := fmtFrac6_all_digit m c hm
  rw [hd] at this
  exact absurd this (by simp)

theorem splitSep_fmtFixed6Nat (n : Nat) :
    splitSep '.' (fmtFixed6Nat n) =
      [fmtNat (n / 1000000), fmtFrac6 (n % 1000000)] := by
  rw [fmtFixed6Nat, splitSep_append _ (not_mem_fmtNat (by decide)),
    splitSep_of_not_mem (not_mem_fmtFrac6 (by decide))]

theorem natParse?_fmtFrac6 (m : Nat) :
    natParse? (fmtFrac6 m) = some (natOfDigits (fmtFrac6 m)) :=
  natParse?_of_digits (by simp [fmtFrac6]) (fmtFrac6_all_digit m)

theorem fracParse?_fmtFixed6Nat (n : Nat) :
    fracParse? (fmtFixed6Nat n) = some ((n : ℚ) / 1000000) := by
  rw [fracParse?_pair (splitSep_fmtFixed6Nat n), natParse?_fmtNat,
    natParse?_fmtFrac6,
    natOfDigits_fmtFrac6 (Nat.mod_lt _ (by omega))]
  show some (((n / 1000000 : Nat) : ℚ) +
      ((n % 1000000 : Nat) : ℚ) / (10 : ℚ) ^ (fmtFrac6 (n % 1000000)).length) =
    some ((n : ℚ) / 1000000)
  have hlen : (fmtFrac6 (n % 1000000)).length = 6 := rfl
  rw [hlen]
  congr 1
  have key : 1000000 * ((n / 1000000 : Nat) : ℚ) +
      ((n % 1000000 : Nat) : ℚ) = (n : ℚ) := by
    exact_mod_cast congrArg (fun k : Nat => (k : ℚ))
      (Nat.div_add_mod n 1000000)
  rw [show ((10 : ℚ) ^ 6) = 1000000 by norm_num]
  field_simp
  linarith [key]

theorem head?_fmtFixed6Nat_ne {n : Nat} {c : Char} (hc : c.isDigit = false) :
    (fmtFixed6Nat n).head? ≠ some c := by
  rw [fmtFixed6Nat]
  rcases hn : fmtNat (n / 1000000) with _ | ⟨d, rest⟩
  · exact absurd hn (fmtNat_ne_nil _)
  · have hd : d.isDigit := by
      have := fmtNat_all_digit (n / 1000000) d
      rw [hn] at this
      exact this (by simp)
    simp only [List.cons_append, List.head?_cons]
    intro he
    injection he with he2
    rw [he2, hc] at hd
    exact absurd hd (by simp)

theorem ratParse?_fmtFixed6 (q : ℚ) :
    ratParse? (fmtFixed6 q) = some (fixed6Val q) := by
  by_cases h : q < 0
  · rw [fmtFixed6, if_pos h, ratParse?]
    have hh : ('-' :: fmtFixed6Nat (round6 (-q)).toNat).head? = some '-' := rfl
    rw [if_pos hh]
    simp only [List.tail_cons, fracParse?_fmtFixed6Nat]
    rw [fixed6Val, if_pos h]
  · rw [fmtFixed6, if_neg h, ratParse?,
      if_neg (head?_fmtFixed6Nat_ne (by decide)), fracParse?_fmtFixed6Nat,
      fixed6Val, if_neg h]

theorem not_mem_fmtInt {i : Int} {c : Char} (hd : c.isDigit = false)
    (hdash : c ≠ '-') : c ∉ fmtInt i :=
  not_mem_of_intParse? (intParse?_fmtInt i) hd hdash

theorem not_mem_fmtFixed6 {q : ℚ} {c : Char} (hd : c.isDigit = false)
    (hdot : c ≠ '.') (hdash : c ≠ '-') : c ∉ fmtFixed6 q :=
  not_mem_of_ratParse? (ratParse?_fmtFixed6 q) hd hdot hdash

theorem splitSep_join7 {sep : Char} {f1 f2 f3 f4 f5 f6 f7 : List Char}
    (h1 : sep ∉ f1) (h2 : sep ∉ f2) (h3 : sep ∉ f3) (h4 : sep ∉ f4)
    (h5 : sep ∉ f5) (h6 : sep ∉ f6) (h7 : sep ∉ f7) :
    splitSep sep (joinSep sep [f1, f2, f3, f4, f5, f6, f7]) =
      [f1, f2, f3, f4, f5, f6, f7] := by
  have hj : joinSep sep [f1, f2, f3, f4, f5, f6, f7] =
      f1 ++ sep :: (f2 ++ sep :: (f3 ++ sep :: (f4 ++
        sep :: (f5 ++ sep :: (f6 ++ sep :: f7))))) := by
    simp [joinSep]
  rw [hj, splitSep_append _ h1, splitSep_append _ h2, splitSep_append _ h3,
    splitSep_append _ h4, splitSep_append _ h5, splitSep_append _ h6,
    splitSep_of_not_mem h7]

theorem parseLineL_eq {cs f1 f2 f3 f4 f5 f6 f7 : List Char}
    (hsp : splitSep '|' cs = [f1, f2, f3, f4, f5, f6, f7]) :
    parseLineL cs =
      match intParse? f1, ratParse? f2, intParse? f3, intParse? f4,
            ratParse? f5, intParse? f6, intParse? f7 with
      | some t, some p, some r, some g, some rw2, some cp, some vt =>
        some ⟨t, p, r, g, rw2, cp, vt⟩
      | _, _, _, _, _, _, _ => none := by
  rw [parseLineL, hsp]

theorem ratParse?_concrete {cs a b : List Char} {n m : Nat} {q : ℚ}
    (hhead : ¬ cs.head? = some '-')
    (hsp : splitSep '.' cs = [a, b])
    (hna : natParse? a = some n) (hnb : natParse? b = some m)
    (hq : (n : ℚ) + (m : ℚ) / ((10 : ℚ) ^ b.length) = q) :
    ratParse? cs = some q := by
  rw [ratParse?, if_neg hhead, fracParse?_pair hsp, hna, hnb]
  show some ((n : ℚ) + (m : ℚ) / ((10 : ℚ) ^ b.length)) = some q
  rw [hq]

theorem parseLineL_none_of_not7 {cs : List Char}
    (h : (splitSep '|' cs).length ≠ 7) : parseLineL cs = none := by
  rw [parseLineL]
  split
  · rename_i f1 f2 f3 f4 f5 f6 f7 heq
    exact absurd (by rw [heq]; rfl) h
  · rfl

theorem parseLineL_join7 {f1 f2 f3 f4 f5 f6 f7 : List Char} {t : Int}
    {p : ℚ} {r g : Int} {rw2 : ℚ} {cp vt : Int}
    (h1 : intParse? f1 = some t) (h2 : ratParse? f2 = some p)
    (h3 : intParse? f3 = some r) (h4 : intParse? f4 = some g)
    (h5 : ratParse? f5 = some rw2) (h6 : intParse? f6 = some cp)
    (h7 : intParse? f7 = some vt) :
    parseLineL (joinSep '|' [f1, f2, f3, f4, f5, f6, f7]) =
      some ⟨t, p, r, g, rw2, cp, vt⟩ := by
  have hs : splitSep '|' (joinSep '|' [f1, f2, f3, f4, f5, f6, f7]) =
      [f1, f2, f3, f4, f5, f6, f7] :=
    splitSep_join7
      (not_mem_of_intParse? h1 (by decide) (by decide))
      (not_mem_of_ratParse? h2 (by decide) (by decide) (by decide))
      (not_mem_of_intParse? h3 (by decide) (by decide))
      (not_mem_of_intParse? h4 (by decide) (by decide))
      (not_mem_of_ratParse? h5 (by decide) (by decide) (by decide))
      (not_mem_of_intParse? h6 (by decide) (by decide))
      (not_mem_of_intParse? h7 (by decide) (by decide))
  rw [parseLineL_eq hs, h1, h2, h3, h4, h5, h6, h7]

theorem parseLineL_join7_none {f1 f2 f3 f4 f5 f6 f7 : List Char}
    (hp1 : ('|') ∉ f1) (hp2 : ('|') ∉ f2) (hp3 : ('|') ∉ f3)
    (hp4 : ('|') ∉ f4) (hp5 : ('|') ∉ f5) (hp6 : ('|') ∉ f6)
    (hp7 : ('|') ∉ f7)
    (h : intParse? f1 = none ∨ ratParse? f2 = none ∨ intParse? f3 = none ∨
      intParse? f4 = none ∨ ratParse? f5 = none ∨ intParse? f6 = none ∨
      intParse? f7 = none) :
    parseLineL (joinSep '|' [f1, f2, f3, f4, f5, f6, f7]) = none := by
  rw [parseLineL_eq (splitSep_join7 hp1 hp2 hp3 hp4 hp5 hp6 hp7)]
  split
  · rename_i t p r g rw2 cp vt e1 e2 e3 e4 e5 e6 e7
    rcases h with h | h | h | h | h | h | h <;> simp_all
  · rfl

theorem not_mem_join7 {sep c : Char} {f1 f2 f3 f4 f5 f6 f7 : List Char}
    (hc1 : c ∉ f1) (hc2 : c ∉ f2) (hc3 : c ∉ f3) (hc4 : c ∉ f4)
    (hc5 : c ∉ f5) (hc6 : c ∉ f6) (hc7 : c ∉ f7) (hsep : c ≠ sep) :
    c ∉ joinSep sep [f1, f2, f3, f4, f5, f6, f7] := by
  have hj : joinSep sep [f1, f2, f3, f4, f5, f6, f7] =
      f1 ++ sep :: (f2 ++ sep :: (f3 ++ sep :: (f4 ++
        sep :: (f5 ++ sep :: (f6 ++ sep :: f7))))) := by
    simp [joinSep]
  rw [hj]
  intro hm
  simp only [List.mem_append, List.mem_cons] at hm
  tauto

theorem writeToFile_eq (m : GameMem) :
    ALU_writeToFile m =
      joinSep '|'
        [fmtInt (ALU_readGameValues m).1,
         fmtFixed6 (ALU_readGameValues m).2.1,
         fmtInt (ALU_readGameValues m).2.2.1,
         fmtInt (ALU_readGameValues m).2.2.2.1,
         fmtFixed6 (ALU_readGameValues m).2.2.2.2.1,
         fmtInt (ALU_readGameValues m).2.2.2.2.2.1,
         fmtInt (ALU_readGameValues m).2.2.2.2.2.2] := rfl

/-- C1: every 7-field pipe-delimited line whose fields parse with the
declared types int, float, int, int, float, int, int is accepted with
exactly those values; a wrong field count or a non-numeric field is
rejected, and a rejected line leaves the previously held `TelemetryFrame`
unchanged.  The line `123456|0.453211|4500|3|4512.300000|2|123456` is
accepted with timerUs 123456, progress 0.453211, rpm 4500, gear 3, rpmRaw
4512.3, checkpoint 2, visualTimer 123456, and the line `abc|0.5` is
rejected with the prior frame unchanged. -/
theorem telemetry_parse_spec :
    (∀ (prev : TelemetryFrame) (f1 f2 f3 f4 f5 f6 f7 : List Char) (t : Int)
       (p : ℚ) (r g : Int) (rw2 : ℚ) (cp vt : Int),
       intParse? f1 = some t → ratParse? f2 = some p →
       intParse? f3 = some r → intParse? f4 = some g →
       ratParse? f5 = some rw2 → intParse? f6 = some cp →
       intParse? f7 = some vt →
       readStep prev (String.mk (joinSep '|' [f1, f2, f3, f4, f5, f6, f7])) =
         ⟨t, p, r, g, rw2, cp, vt⟩) ∧
    (∀ (prev : TelemetryFrame) (s : String), parseLine s = none →
       readStep prev s = prev) ∧
    (∀ cs : List Char, (splitSep '|' cs).length ≠ 7 → parseLineL cs = none) ∧
    (∀ f1 f2 f3 f4 f5 f6 f7 : List Char,
       ('|') ∉ f1 → ('|') ∉ f2 → ('|') ∉ f3 → ('|') ∉ f4 → ('|') ∉ f5 →
       ('|') ∉ f6 → ('|') ∉ f7 →
       (intParse? f1 = none ∨ ratParse? f2 = none ∨ intParse? f3 = none ∨
         intParse? f4 = none ∨ ratParse? f5 = none ∨ intParse? f6 = none ∨
         intParse? f7 = none) →
       parseLineL (joinSep '|' [f1, f2, f3, f4, f5, f6, f7]) = none) ∧
    parseLine ("123456|0.453211|4500|3|4512.300000|2|123456") =
      some ⟨123456, 453211 / 1000000, 4500, 3, 45123 / 10, 2, 123456⟩ ∧
    (∀ prev : TelemetryFrame, readStep prev ("abc|0.5") = prev) := by
  refine ⟨?_, ?_, ?_, ?_, ?_, ?_⟩
  · intro prev f1 f2 f3 f4 f5 f6 f7 t p r g rw2 cp vt h1 h2 h3 h4 h5 h6 h7
    rw [readStep, parseLine]
    have hl : (String.mk (joinSep '|' [f1, f2, f3, f4, f5, f6, f7])).toList =
        joinSep '|' [f1, f2, f3, f4, f5, f6, f7] := rfl
    rw [hl, parseLineL_join7 h1 h2 h3 h4 h5 h6 h7]
    rfl
  · intro prev s h
    rw [readStep, h]
    rfl
  · intro cs h
    exact parseLineL_none_of_not7 h
  · intro f1 f2 f3 f4 f5 f6 f7 hp1 hp2 hp3 hp4 hp5 hp6 hp7 h
    exact parseLineL_join7_none hp1 hp2 hp3 hp4 hp5 hp6 hp7 h
  · have h2 : ratParse? (("0.453211").toList) =
        some ((453211 : ℚ) / 1000000) :=
      ratParse?_concrete (by decide)
        (show splitSep '.' (("0.453211").toList) =
          [['0'], ['4', '5', '3', '2', '1', '1']] by decide)
        (show natParse? ['0'] = some 0 by decide)
        (show natParse? ['4', '5', '3', '2', '1', '1'] = some 453211 by decide)
        (by norm_num)
    have h5 : ratParse? (("4512.300000").toList) = some ((45123 : ℚ) / 10) :=
      ratParse?_concrete (by decide)
        (show splitSep '.' (("4512.300000").toList) =
          [['4', '5', '1', '2'], ['3', '0', '0', '0', '0', '0']] by decide)
        (show natParse? ['4', '5', '1', '2'] = some 4512 by decide)
        (show natParse? ['3', '0', '0', '0', '0', '0'] = some 300000 by decide)
        (by norm_num)
    rw [parseLine]
    have hl : ("123456|0.453211|4500|3|4512.300000|2|123456").toList =
        joinSep '|'
          [("123456").toList, ("0.453211").toList, ("4500").toList,
           ("3").toList, ("4512.300000").toList, ("2").toList,
           ("123456").toList] := by decide
    rw [hl, parseLineL_join7
      (show intParse? (("123456").toList) = some 123456 by decide) h2
      (show intParse? (("4500").toList) = some 4500 by decide)
      (show intParse? (("3").toList) = some 3 by decide) h5
      (show intParse? (("2").toList) = some 2 by decide)
      (show intParse? (("123456").toList) = some 123456 by decide)]
  · intro prev
    rw [readStep, show parseLine ("abc|0.5") = none by decide]
    rfl

/-- Witness for C1: the general arms applied at concrete inputs. -/
theorem telemetry_parse_spec_witness :
    readStep ⟨0, 0, 0, 0, 0, 0, 0⟩
        (String.mk (joinSep '|'
          [("11").toList, ("0.25").toList, ("300").toList, ("2").toList,
           ("1.5").toList, ("4").toList, ("9").toList])) =
      ⟨11, 1 / 4, 300, 2, 3 / 2, 4, 9⟩ ∧
    readStep ⟨1, 2, 3, 4, 5, 6, 7⟩ ("garbage") = ⟨1, 2, 3, 4, 5, 6, 7⟩ ∧
    parseLineL (joinSep '|'
      [("x").toList, ("0.5").toList, ("1").toList, ("1").toList,
       ("1.0").toList, ("1").toList, ("1").toList]) = none :=
  ⟨telemetry_parse_spec.1 _ _ _ _ _ _ _ _ _ _ _ _ _ _ _ (by decide)
      (ratParse?_concrete (by decide)
        (show splitSep '.' (("0.25").toList) = [['0'], ['2', '5']] by decide)
        (show natParse? ['0'] = some 0 by decide)
        (show natParse? ['2', '5'] = some 25 by decide) (by norm_num))
      (by decide) (by decide)
      (ratParse?_concrete (by decide)
        (show splitSep '.' (("1.5").toList) = [['1'], ['5']] by decide)
        (show natParse? ['1'] = some 1 by decide)
        (show natParse? ['5'] = some 5 by decide) (by norm_num))
      (by decide) (by decide),
   telemetry_parse_spec.2.1 _ _ (by decide),
   telemetry_parse_spec.2.2.2.1 _ _ _ _ _ _ _ (by decide) (by decide)
      (by decide) (by decide) (by decide) (by decide) (by decide)
      (Or.inl (by decide))⟩

/-- C10: every record the Lua bridge producer writes is a single line of
exactly 7 pipe-separated fields, each numerically parseable with the
declared types (the float fields carrying the six written decimals), with
no newline in the payload; an unavailable or unreadable game-memory symbol
is written as the default 0 / 0.0, indistinguishable from a genuinely zero
read. -/
theorem bridge_payload_wellformed :
    (∀ m : GameMem, (splitSep '|' (ALU_writeToFile m)).length = 7) ∧
    (∀ m : GameMem, parseLineL (ALU_writeToFile m) = some (writtenFrame m)) ∧
    (∀ m : GameMem, ALU_writeToFile m = ALU_writeToFile (defaultedMem m)) ∧
    (∀ m : GameMem, ('\n') ∉ ALU_writeToFile m) := by
  refine ⟨?_, ?_, ?_, ?_⟩
  · intro m
    rw [writeToFile_eq,
      splitSep_join7 (not_mem_fmtInt (by decide) (by decide))
        (not_mem_fmtFixed6 (by decide) (by decide) (by decide))
        (not_mem_fmtInt (by decide) (by decide))
        (not_mem_fmtInt (by decide) (by decide))
        (not_mem_fmtFixed6 (by decide) (by decide) (by decide))
        (not_mem_fmtInt (by decide) (by decide))
        (not_mem_fmtInt (by decide) (by decide))]
    rfl
  · intro m
    rw [writeToFile_eq,
      parseLineL_join7 (intParse?_fmtInt _) (ratParse?_fmtFixed6 _)
        (intParse?_fmtInt _) (intParse?_fmtInt _) (ratParse?_fmtFixed6 _)
        (intParse?_fmtInt _) (intParse?_fmtInt _)]
    rfl
  · intro m
    rfl
  · intro m
    rw [writeToFile_eq]
    exact not_mem_join7
      (not_mem_fmtInt (by decide) (by decide))
      (not_mem_fmtFixed6 (by decide) (by decide) (by decide))
      (not_mem_fmtInt (by decide) (by decide))
      (not_mem_fmtInt (by decide) (by decide))
      (not_mem_fmtFixed6 (by decide) (by decide) (by decide))
      (not_mem_fmtInt (by decide) (by decide))
      (not_mem_fmtInt (by decide) (by decide))
      (by decide)

theorem findCompanion_first {tol : Nat} {terms : List Char} {a : Box}
    {mid : List OcrResult} {c : OcrResult} (post : List OcrResult)
    (hmid : ∀ r ∈ mid, isCompanion tol terms a r = false)
    (hc : isCompanion tol terms a c = true) :
    findCompanion tol terms a (mid ++ c :: post) = some (boundsOf c) := by
  induction mid with
  | nil =>
    rw [List.nil_append, findCompanion, if_pos hc]
  | cons r rs ih =>
    have hr := hmid r (by simp)
    rw [List.cons_append, findCompanion, if_neg (by rw [hr]; simp)]
    exact ih (fun x hx => hmid x (by simp [hx]))

theorem locateSearch_skip {anchor : List Char} {tol : Nat} {terms : List Char}
    {pre : List OcrResult} (rest : List OcrResult)
    (hpre : ∀ r ∈ pre, anchorMatch anchor r = false) :
    locateSearch anchor tol terms (pre ++ rest) =
      locateSearch anchor tol terms rest := by
  induction pre with
  | nil => rw [List.nil_append]
  | cons r rs ih =>
    have hr := hpre r (by simp)
    rw [List.cons_append, locateSearch, if_neg (by rw [hr]; simp)]
    exact ih (fun x hx => hpre x (by simp [hx]))

/-- C2: in SEARCHING mode the locator anchors on the first result whose
lower-cased text contains the anchor substring, then takes as companion the
first later result that is on the same line, right of the anchor, and
terminator-ended, setting the box to the union of the two bounds; with
detector results SomeText (10,10)-(50,20), DIST (60,10)-(100,20),
87% (110,11)-(140,21) the locked box spans (60,10)-(140,21), the terminator
set containing both the percent sign and its OCR misread 7. -/
theorem locator_search_lock :
    (∀ (anchor : List Char) (tol : Nat) (terms : List Char)
       (pre : List OcrResult) (a : OcrResult) (mid : List OcrResult)
       (c : OcrResult) (post : List OcrResult),
       (∀ r ∈ pre, anchorMatch anchor r = false) →
       anchorMatch anchor a = true →
       (∀ r ∈ mid, isCompanion tol terms (boundsOf a) r = false) →
       isCompanion tol terms (boundsOf a) c = true →
       locateSearch anchor tol terms (pre ++ a :: (mid ++ c :: post)) =
         some (unionBox (boundsOf a) (boundsOf c))) ∧
    locateDistBox
      [⟨[(10, 10), (50, 10), (50, 20), (10, 20)], "SomeText"⟩,
       ⟨[(60, 10), (100, 10), (100, 20), (60, 20)], "DIST"⟩,
       ⟨[(110, 11), (140, 11), (140, 21), (110, 21)], "87%"⟩] =
      some ⟨60, 10, 140, 21⟩ ∧
    ('%') ∈ (['%', '7'] : List Char) ∧ ('7') ∈ (['%', '7'] : List Char) := by
  refine ⟨?_, by decide, by decide, by decide⟩
  intro anchor tol terms pre a mid c post hpre ha hmid hc
  rw [locateSearch_skip _ hpre, locateSearch, if_pos ha,
    findCompanion_first post hmid hc]

/-- Witness for C2: the general locking arm applied to the concrete
scenario decomposition. -/
theorem locator_search_lock_witness :
    locateSearch (("dist").toList) 20 ['%', '7']
      ([⟨[(10, 10), (50, 10), (50, 20), (10, 20)], "SomeText"⟩] ++
        ⟨[(60, 10), (100, 10), (100, 20), (60, 20)], "DIST"⟩ ::
          ([] ++ ⟨[(110, 11), (140, 11), (140, 21), (110, 21)], "87%"⟩ ::
            [])) =
      some (unionBox ⟨60, 10, 100, 20⟩ ⟨110, 11, 140, 21⟩) :=
  locator_search_lock.1 (("dist").toList) 20 ['%', '7'] _ _ _ _ _
    (by decide) (by decide) (by decide) (by decide)

theorem roiIter_lockedState {b : Box} {t : Nat} (ht : 1 ≤ t) (n : Nat) :
    roiIter (lockedState b t) n =
      if n < t then ⟨.locked, some b, n, t⟩ else ⟨.searching, none, 0, t⟩ := by
  induction n with
  | zero =>
    rw [roiIter, if_pos (by omega)]
    rfl
  | succ n ih =>
    rw [roiIter, ih]
    by_cases h1 : n + 1 < t
    · have h0 : n < t := by omega
      rw [if_pos h0, if_pos h1]
      show (if t ≤ n + 1 then (⟨.searching, none, 0, t⟩ : RoiState)
        else ⟨.locked, some b, n + 1, t⟩) = ⟨.locked, some b, n + 1, t⟩
      rw [if_neg (by omega)]
    · by_cases h0 : n < t
      · rw [if_pos h0, if_neg h1]
        show (if t ≤ n + 1 then (⟨.searching, none, 0, t⟩ : RoiState)
          else ⟨.locked, some b, n + 1, t⟩) = ⟨.searching, none, 0, t⟩
        rw [if_pos (by omega)]
      · rw [if_neg h0, if_neg h1]
        rfl

theorem transCount_lockedState {b : Box} {t : Nat} (ht : 1 ≤ t) (n : Nat) :
    transCount (lockedState b t) n = if t ≤ n then 1 else 0 := by
  induction n with
  | zero =>
    rw [transCount, if_neg (by omega)]
  | succ n ih =>
    rw [transCount, ih, roiIter_lockedState ht n, roiIter_lockedState ht (n + 1)]
    by_cases h1 : n + 1 < t
    · have h0 : n < t := by omega
      rw [if_pos h0, if_pos h1, if_neg (by omega : ¬ t ≤ n),
        if_neg (by omega : ¬ t ≤ n + 1), if_neg (by simp)]
    · by_cases h0 : n < t
      · rw [if_pos h0, if_neg h1, if_neg (by omega : ¬ t ≤ n),
        if_pos (by omega : t ≤ n + 1), if_pos (by simp)]
      · rw [if_neg h0, if_neg h1, if_pos (by omega : t ≤ n),
        if_pos (by omega : t ≤ n + 1), if_neg (by simp)]

/-- C3: while LOCKED, each miss increments `consecutiveFailures`, and the
locator transitions back to SEARCHING (discarding the box) exactly when the
counter reaches `failureThreshold`: never earlier than the threshold-th
consecutive miss, and exactly one LOCKED-to-SEARCHING transition per
threshold crossing, with no duplicate transition on later misses before a
re-lock.  With threshold 5, five consecutive misses transition after the
5th miss, not earlier. -/
theorem roi_failure_threshold :
    (∀ (b : Box) (t : Nat), 1 ≤ t →
      (∀ n, n < t →
        roiIter (lockedState b t) n = ⟨.locked, some b, n, t⟩) ∧
      (∀ n, t ≤ n →
        roiIter (lockedState b t) n = ⟨.searching, none, 0, t⟩) ∧
      (∀ n, transCount (lockedState b t) n = if t ≤ n then 1 else 0)) ∧
    (∀ b : Box,
      (roiIter (lockedState b 5) 4).mode = RoiMode.locked ∧
      (roiIter (lockedState b 5) 5).mode = RoiMode.searching ∧
      transCount (lockedState b 5) 9 = 1) := by
  constructor
  · intro b t ht
    refine ⟨?_, ?_, ?_⟩
    · intro n hn
      rw [roiIter_lockedState ht n, if_pos hn]
    · intro n hn
      rw [roiIter_lockedState ht n, if_neg (by omega)]
    · intro n
      exact transCount_lockedState ht n
  · intro b
    refine ⟨?_, ?_, ?_⟩
    · rw [roiIter_lockedState (by omega) 4, if_pos (by omega)]
    · rw [roiIter_lockedState (by omega) 5, if_neg (by omega)]
    · rw [transCount_lockedState (by omega) 9, if_pos (by omega)]

/-- Witness for C3: the general arms applied at threshold 5. -/
theorem roi_failure_threshold_witness :
    roiIter (lockedState ⟨0, 0, 1, 1⟩ 5) 3 =
      ⟨.locked, some ⟨0, 0, 1, 1⟩, 3, 5⟩ ∧
    roiIter (lockedState ⟨0, 0, 1, 1⟩ 5) 7 = ⟨.searching, none, 0, 5⟩ ∧
    transCount (lockedState ⟨0, 0, 1, 1⟩ 5) 4 = 0 :=
  ⟨(roi_failure_threshold.1 ⟨0, 0, 1, 1⟩ 5 (by decide)).1 3 (by decide),
   (roi_failure_threshold.1 ⟨0, 0, 1, 1⟩ 5 (by decide)).2.1 7 (by decide),
   by
     rw [(roi_failure_threshold.1 ⟨0, 0, 1, 1⟩ 5 (by decide)).2.2 4]
     rfl⟩

theorem mem_progress_head_le {a s : Sample} {l : List Sample}
    (hs : progSorted (a :: l)) (hm : s ∈ a :: l) :
    a.progress ≤ s.progress := by
  induction l generalizing a with
  | nil =>
    simp only [List.mem_singleton] at hm
    rw [hm]
  | cons b rest ih =>
    obtain ⟨hab, htail⟩ := List.chain'_cons.mp hs
    rcases List.mem_cons.mp hm with h | h
    · rw [h]
    · exact le_of_lt (lt_of_lt_of_le hab (ih htail h))

theorem mem_progress_head_lt {b s : Sample} {rest : List Sample}
    (hs : progSorted (b :: rest)) (hm : s ∈ rest) :
    b.progress < s.progress := by
  induction rest generalizing b with
  | nil => simp at hm
  | cons c rest2 ih =>
    obtain ⟨hbc, htail⟩ := List.chain'_cons.mp hs
    rcases List.mem_cons.mp hm with h | h
    · rw [h]
      exact hbc
    · exact lt_trans hbc (ih htail h)

theorem ghostGo_exact {a s : Sample} {l : List Sample}
    (hs : progSorted (a :: l)) (hm : s ∈ a :: l) :
    ghostElapsedGo a l s.progress = (s.elapsedMs : ℚ) := by
  induction l generalizing a with
  | nil =>
    simp only [List.mem_singleton] at hm
    subst hm
    rfl
  | cons b rest ih =>
    obtain ⟨hab, htail⟩ := List.chain'_cons.mp hs
    rcases List.mem_cons.mp hm with h | h
    · subst h
      show (if s.progress ≤ s.progress then ((s.elapsedMs : ℚ)) else _) = _
      rw [if_pos le_rfl]
    · have hbs : b.progress ≤ s.progress := mem_progress_head_le htail h
      have has : a.progress < s.progress := lt_of_lt_of_le hab hbs
      show (if s.progress ≤ a.progress then ((a.elapsedMs : ℚ))
        else if s.progress ≤ b.progress then
          (if a.progress = b.progress then ((a.elapsedMs : ℚ))
            else (a.elapsedMs : ℚ) +
              (s.progress - a.progress) / (b.progress - a.progress) *
                ((b.elapsedMs : ℚ) - (a.elapsedMs : ℚ)))
        else ghostElapsedGo b rest s.progress) = (s.elapsedMs : ℚ)
      rw [if_neg (by linarith)]
      by_cases hsb : s.progress ≤ b.progress
      · rcases List.mem_cons.mp h with h2 | h2
        · subst h2
          rw [if_pos hsb, if_neg (ne_of_lt hab)]
          have hne : s.progress - a.progress ≠ 0 := by
            intro he
            exact absurd (by linarith : a.progress = s.progress) (ne_of_lt hab)
          rw [div_self hne, one_mul]
          ring
        · have := mem_progress_head_lt htail h2
          exact absurd hsb (by linarith)
      · rw [if_neg hsb]
        exact ih htail h

/-- C4: for a non-empty ghost with strictly increasing recorded progress,
`deltaToGhost` at a current sample whose progress equals a ghost sample's
progress returns exactly the literal difference of the two elapsed times
(no interpolation error); for ghost samples (progress 0, elapsed 0 ms) and
(progress 1, elapsed 60000 ms) and current sample (progress 0.5, elapsed
31000 ms) it returns +1000, the linear interpolation of the ghost at the
current progress subtracted from the current elapsed time, positive meaning
behind the ghost. -/
theorem deltaToGhost_exact :
    (∀ (ghost : List Sample) (cur s : Sample),
       progSorted ghost → s ∈ ghost → cur.progress = s.progress →
       deltaToGhost ghost cur =
         some ((cur.elapsedMs : ℚ) - (s.elapsedMs : ℚ))) ∧
    deltaToGhost [⟨0, 0, ""⟩, ⟨60000, 1, ""⟩] ⟨31000, 1 / 2, ""⟩ =
      some 1000 := by
  constructor
  · intro ghost cur s hs hm hp
    rcases ghost with _ | ⟨a, l⟩
    · simp at hm
    · show some ((cur.elapsedMs : ℚ) - ghostElapsedGo a l cur.progress) = _
      rw [hp, ghostGo_exact hs hm]
  · show some ((31000 : ℚ) -
      ghostElapsedGo ⟨0, 0, ""⟩ [⟨60000, 1, ""⟩] (1 / 2)) = some 1000
    norm_num [ghostElapsedGo]

/-- Witness for C4: the exact-match arm applied at a ghost endpoint. -/
theorem deltaToGhost_exact_witness :
    deltaToGhost [⟨0, 0, ""⟩, ⟨60000, 1, ""⟩] ⟨59000, 1, ""⟩ =
      some ((59000 : ℚ) - (60000 : ℚ)) :=
  deltaToGhost_exact.1 [⟨0, 0, ""⟩, ⟨60000, 1, ""⟩] ⟨59000, 1, ""⟩
    ⟨60000, 1, ""⟩ (by norm_num [progSorted]) (by simp) rfl

theorem ratExactParse?_pair {cs a b : List Char}
    (hsp : splitSep '/' cs = [a, b]) :
    ratExactParse? cs =
      match intParse? a, natParse? b with
      | some n, some d => some ((n : ℚ) / (d : ℚ))
      | _, _ => none := by
  rw [ratExactParse?, hsp]

theorem ratExactParse?_fmtRatExact (q : ℚ) :
    ratExactParse? (fmtRatExact q) = some q := by
  have hsp : splitSep '/' (fmtRatExact q) = [fmtInt q.num, fmtNat q.den] := by
    rw [fmtRatExact, splitSep_append _ (not_mem_fmtInt (by decide) (by decide)),
      splitSep_of_not_mem (not_mem_fmtNat (by decide))]
  rw [ratExactParse?_pair hsp, intParse?_fmtInt, natParse?_fmtNat]
  show some ((q.num : ℚ) / (q.den : ℚ)) = some q
  rw [Rat.num_div_den]

/-- C5: ghost persistence round-trips exactly — loading the result of saving
any race yields the same ordered sample sequence. -/
theorem ghost_roundtrip :
    ∀ race : List Sample, loadGhost (saveGhost race) = some race := by
  intro race
  rw [loadGhost, saveGhost]
  rw [if_pos rfl]
  show loadRecords (race.map
    (fun s => (fmtInt s.elapsedMs, fmtRatExact s.progress, s.rawText))) =
      some race
  induction race with
  | nil => rfl
  | cons s rest ih =>
    rw [List.map_cons, loadRecords]
    show (match intParse? (fmtInt s.elapsedMs),
        ratExactParse? (fmtRatExact s.progress),
        loadRecords (rest.map
          (fun r => (fmtInt r.elapsedMs, fmtRatExact r.progress, r.rawText)))
        with
      | some e, some p, some tail => some (Sample.mk e p s.rawText :: tail)
      | _, _, _ => none) = some (s :: rest)
    rw [intParse?_fmtInt, ratExactParse?_fmtRatExact, ih]

/-- C6: no internal stage failure unwinds past the Recognition Coordinator —
for every combination of raw stage outcomes (including failing ones) the
coordinator pass terminates normally, and its result is the explicit
no-result composition of the guarded stages. -/
theorem coordinator_no_unwind :
    ∀ (o : PipeOutcomes) (s : CoordState),
      coordinatorPassE o s = Except.ok (coordinatorPure o s) := by
  intro o s
  rcases o with ⟨l, r, c, a⟩
  cases l <;> cases r <;> cases c <;> cases a <;> rfl

/-- C7: the confidence gate accepts a prediction exactly when the reported
confidence meets or exceeds the threshold; a gated-out prediction yields
"no result" and leaves the caller's last accepted value in effect; the
default threshold is 0.65. -/
theorem confidence_gate_spec :
    (∀ t c v : ℚ, gatePrediction t c v = some v ↔ t ≤ c) ∧
    (∀ t c v : ℚ, c < t → gatePrediction t c v = none) ∧
    (∀ (t : ℚ) (last : Option ℚ) (c v : ℚ), t ≤ c →
      gateStep t last c v = some v) ∧
    (∀ (t : ℚ) (last : Option ℚ) (c v : ℚ), c < t →
      gateStep t last c v = last) ∧
    defaultConfidenceThreshold = 13 / 20 := by
  refine ⟨?_, ?_, ?_, ?_, by norm_num [defaultConfidenceThreshold]⟩
  · intro t c v
    constructor
    · intro h
      by_contra hn
      rw [gatePrediction, if_neg hn] at h
      exact absurd h (by simp)
    · intro h
      rw [gatePrediction, if_pos h]
  · intro t c v h
    rw [gatePrediction, if_neg (by linarith)]
  · intro t last c v h
    rw [gateStep, gatePrediction, if_pos h]
  · intro t last c v h
    rw [gateStep, gatePrediction, if_neg (by linarith)]

/-- Witness for C7: the gate at the default threshold, accepting at
confidence 0.7 and rejecting at confidence 0.5. -/
theorem confidence_gate_spec_witness :
    gateStep defaultConfidenceThreshold (some 3) (7 / 10) (1 / 2) =
      some (1 / 2) ∧
    gateStep defaultConfidenceThreshold (some 3) (1 / 2) (9 / 10) = some 3 :=
  ⟨confidence_gate_spec.2.2.1 defaultConfidenceThreshold (some 3) (7 / 10)
      (1 / 2) (by norm_num [defaultConfidenceThreshold]),
   confidence_gate_spec.2.2.2.1 defaultConfidenceThreshold (some 3) (1 / 2)
      (9 / 10) (by norm_num [defaultConfidenceThreshold])⟩

theorem not_mem_of_digits {xs : List Char} (hd : ∀ c ∈ xs, c.isDigit)
    {c : Char} (hc : c.isDigit = false) : c ∉ xs := by
  intro hm
  have := hd c hm
  rw [hc] at this
  exact absurd this (by simp)

theorem timerToMsL_pair {cs mp rest : List Char}
    (hsp : splitSep ':' cs = [mp, rest]) :
    timerToMsL cs = timerSecPart mp rest := by
  rw [timerToMsL, hsp]

theorem timerSecPart_pair {mp rest sp msp : List Char}
    (hsp : splitSep '.' rest = [sp, msp]) :
    timerSecPart mp rest = timerAssemble mp sp msp := by
  rw [timerSecPart, hsp]

theorem timerAssemble_eq (mp sp msp : List Char) :
    timerAssemble mp sp msp =
      match natParse? mp, natParse? sp, natParse? msp with
      | some m, some s, some ms => some (m * 60000 + s * 1000 + ms)
      | _, _, _ => none := rfl

/-- C8: the timer-string conversion maps a string to `some` millisecond
count exactly when the string is a well-formed
`minutes:seconds.milliseconds` digit pattern, in which case the count is
minutes*60000 + seconds*1000 + milliseconds; every malformed string yields
"no result", never a corrupted numeric value. -/
theorem timer_conversion_correct :
    (∀ (cs : List Char) (v : Nat),
      timerToMsL cs = some v ↔ wellFormedTimer cs v) ∧
    timerToMs ("1:23.456") = some 83456 ∧
    timerToMs ("1234") = none ∧
    timerToMs ("1:23") = none ∧
    timerToMs ("1:2a.456") = none := by
  refine ⟨?_, by decide, by decide, by decide, by decide⟩
  intro cs v
  constructor
  · intro h
    rw [timerToMsL] at h
    split at h
    · rename_i mp rest heq
      rw [timerSecPart] at h
      split at h
      · rename_i sp msp heq2
        rw [timerAssemble_eq] at h
        split at h
        · rename_i m s ms e1 e2 e3
          obtain ⟨hm0, hmd, hmv⟩ := natParse?_eq_some e1
          obtain ⟨hs0, hsd, hsv⟩ := natParse?_eq_some e2
          obtain ⟨hms0, hmsd, hmsv⟩ := natParse?_eq_some e3
          injection h with h
          refine ⟨mp, sp, msp, ?_, hm0, hmd, hs0, hsd, hms0, hmsd, ?_⟩
          · rw [eq_append_of_splitSep_pair heq,
              eq_append_of_splitSep_pair heq2]
          · omega
        · exact absurd h (by simp)
      · exact absurd h (by simp)
    · exact absurd h (by simp)
  · rintro ⟨mp, sp, msp, hcs, h1, h2, h3, h4, h5, h6, hv⟩
    have hrest : splitSep '.' (sp ++ '.' :: msp) = [sp, msp] := by
      rw [splitSep_append _ (not_mem_of_digits h4 (by decide)),
        splitSep_of_not_mem (not_mem_of_digits h6 (by decide))]
    have hm1 : splitSep ':' cs = [mp, sp ++ '.' :: msp] := by
      rw [hcs, splitSep_append _ (not_mem_of_digits h2 (by decide)),
        splitSep_of_not_mem ?_]
      intro hm
      rcases List.mem_append.mp hm with hin | hin
      · exact not_mem_of_digits h4 (by decide) hin
      · rcases List.mem_cons.mp hin with h7 | h7
        · exact absurd h7 (by decide)
        · exact not_mem_of_digits h6 (by decide) h7
    rw [timerToMsL_pair hm1, timerSecPart_pair hrest, timerAssemble_eq,
      natParse?_of_digits h1 h2, natParse?_of_digits h3 h4,
      natParse?_of_digits h5 h6]
    show some (natOfDigits mp * 60000 + natOfDigits sp * 1000 +
      natOfDigits msp) = some v
    rw [hv]

/-- Witness for C8: the equivalence applied at a concrete well-formed
timer string. -/
theorem timer_conversion_correct_witness :
    timerToMsL (("2:05.100").toList) = some 125100 ∧
    wellFormedTimer (("2:05.100").toList) 125100 :=
  ⟨by decide, (timer_conversion_correct.1 _ _).mp (by decide)⟩

/-- C9: template-matching recognition is deterministic — two runs of the
recognizer on the same glyph crop against the same template set and
threshold yield the same digit or the same unresolved outcome. -/
theorem template_matching_deterministic :
    (∀ (minScore : Nat) (crop : Glyph) (ts : List (Char × Glyph))
       (r1 r2 : Option Char),
       recognizeGlyph minScore crop ts = r1 →
       recognizeGlyph minScore crop ts = r2 → r1 = r2) ∧
    (∀ (minScore : Nat) (crop : Glyph) (ts : List (Char × Glyph)),
       recognizeGlyph minScore crop ts = recognizeGlyph minScore crop ts) :=
  ⟨fun _ _ _ _ _ h1 h2 => h1.symm.trans h2, fun _ _ _ => rfl⟩

/-- Witness for C9: determinism applied at a concrete crop and template
set. -/
theorem template_matching_deterministic_witness :
    (some '1' : Option Char) = some '1' :=
  template_matching_deterministic.1 0 [[true]] [('1', [[true]])]
    (some '1') (some '1') (by decide) (by decide)

end ALU


